import Mathlib

/-!
Shallow embedding of the ai-fintech-weekly aggregation pipeline
(scripts/fetch_news.py and scripts/summarize.py) and proofs about it.

Modelling conventions:
* Python strings are lists of characters (`Str`).
* Naive datetimes are integer epoch seconds; the code only ever works with
  naive local-time datetimes, so local time is identified with the epoch
  scale (`datetime.fromtimestamp` is the identity, `timedelta(days=d)` is
  `d * 86400` seconds, comparison is integer comparison).
* JSON dictionaries are structures; keys that may be absent are Option
  fields (`none` = key absent).
* Network transports and the language-model collaborator are out of scope
  per the spec; adapters take the already-parsed provider payload as an
  argument, and collaborator calls are `Except`-valued arguments
  (`.error` = the call raised / the response was unusable).
-/

namespace AiFintechWeekly

abbrev Str := List Char

/-- The character class matched by the whitespace escape in the source's
title-stripping regex (its ASCII part, which is all the pipeline meets). -/
def isPySpace (c : Char) : Bool :=
  c == ' ' || c == '\t' || c == '\n' || c == '\r' || c == '\x0b' || c == '\x0c'

/-- Decimal digits of a natural number, most significant first. -/
def natDigits (n : Nat) : Str := Nat.toDigits 10 n

def padZeros (k : Nat) (s : Str) : Str := List.replicate (k - s.length) '0' ++ s

/-- Days since 1970-01-01 of a proleptic Gregorian date (the standard
days-from-civil computation, mirroring datetime's date arithmetic). -/
def daysFromCivil (y m d : Int) : Int :=
  let y2 := if m ≤ 2 then y - 1 else y
  let era := Int.fdiv y2 400
  let yoe := y2 - era * 400
  let mp := Int.emod (m + 9) 12
  let doy := Int.fdiv (153 * mp + 2) 5 + d - 1
  let doe := yoe * 365 + Int.fdiv yoe 4 - Int.fdiv yoe 100 + doy
  era * 146097 + doe - 719468

/-- Gregorian date of a days-since-epoch count (inverse of daysFromCivil). -/
def civilFromDays (z : Int) : Int × Int × Int :=
  let z2 := z + 719468
  let era := Int.fdiv z2 146097
  let doe := z2 - era * 146097
  let yoe := Int.fdiv (doe - Int.fdiv doe 1460 + Int.fdiv doe 36524 - Int.fdiv doe 146096) 365
  let y := yoe + era * 400
  let doy := doe - (365 * yoe + Int.fdiv yoe 4 - Int.fdiv yoe 100)
  let mp := Int.fdiv (5 * doy + 2) 153
  let d := doy - Int.fdiv (153 * mp + 2) 5 + 1
  let m := mp + (if mp < 10 then 3 else -9)
  (y + (if m ≤ 2 then 1 else 0), m, d)

/-- Rendering of strftime("%Y-%m-%d") on an epoch timestamp. -/
def formatYMD (ts : Int) : Str :=
  let c := civilFromDays (Int.fdiv ts 86400)
  padZeros 4 (natDigits c.1.toNat) ++ "-".toList ++ padZeros 2 (natDigits c.2.1.toNat)
    ++ "-".toList ++ padZeros 2 (natDigits c.2.2.toNat)

/-- Rendering of strftime("%Y-W%W") on an epoch timestamp (Monday-first
week number; days before the first Monday of the year fall in week 0). -/
def formatWeek (ts : Int) : Str :=
  let z := Int.fdiv ts 86400
  let c := civilFromDays z
  let yday0 := z - daysFromCivil c.1 1 1
  let wd := Int.emod (z + 3) 7
  let wk := Int.fdiv (yday0 - wd + 7) 7
  padZeros 4 (natDigits c.1.toNat) ++ "-W".toList ++ padZeros 2 (natDigits wk.toNat)

def digitVal (c : Char) : Nat := c.toNat - 48

/-- Parse a run of one or two decimal digits, exactly as the strptime
month/day sub-patterns do (they accept one or two digits, leaving any
further character to the following literal of the format). -/
def parse1or2 : Str → Option (Nat × Str)
  | [] => none
  | [c] => if c.isDigit then some (digitVal c, []) else none
  | c1 :: c2 :: rest =>
    if c1.isDigit then
      if c2.isDigit then some (digitVal c1 * 10 + digitVal c2, rest)
      else some (digitVal c1, c2 :: rest)
    else none

def isLeap (y : Nat) : Bool := y % 4 == 0 && (y % 100 != 0 || y % 400 == 0)

def daysInMonth (y m : Nat) : Nat :=
  if m == 2 then (if isLeap y then 29 else 28)
  else if m == 4 || m == 6 || m == 9 || m == 11 then 30
  else 31

/-- Model of _parse_date_yyyy_mm_dd: datetime.strptime(value, "%Y-%m-%d")
returning the calendar date, with none for empty input and for any parse
or validation failure (the source catches ValueError and returns None).
The year part is exactly four digits; month and day are one or two digits
range-checked the way the strptime regex and the datetime constructor do. -/
def parse_date_yyyy_mm_dd (s : Str) : Option (Nat × Nat × Nat) :=
  match s with
  | c1 :: c2 :: c3 :: c4 :: '-' :: rest =>
    if c1.isDigit && c2.isDigit && c3.isDigit && c4.isDigit then
      let y := ((digitVal c1 * 10 + digitVal c2) * 10 + digitVal c3) * 10 + digitVal c4
      match parse1or2 rest with
      | some (m, '-' :: rest2) =>
        match parse1or2 rest2 with
        | some (d, []) =>
          if 1 ≤ y ∧ 1 ≤ m ∧ m ≤ 12 ∧ 1 ≤ d ∧ d ≤ daysInMonth y m then some (y, m, d)
          else none
        | _ => none
      | _ => none
    else none
  | _ => none

/-- Epoch seconds of local midnight of a calendar date (what the datetime
returned by _parse_date_yyyy_mm_dd denotes in our time model). -/
def dateEpoch (ymd : Nat × Nat × Nat) : Int :=
  daysFromCivil ymd.1 ymd.2.1 ymd.2.2 * 86400

/-- One news dictionary as built by the adapters and persisted in the
dataset JSON. `ts` is the internal "_published_ts" key; `title_zh` and
`ai_summary` are the enrichment keys; Option `none` means the key is
absent from the dictionary. -/
structure Item where
  title : Str
  link : Str
  source : Str
  published : Str
  summary : Str
  lang : Str
  ts : Option Int
  title_zh : Option Str
  ai_summary : Option Str
deriving DecidableEq

/-- The aggregated dataset dictionary (keys of the persisted JSON). -/
structure Dataset where
  fetch_date : Str
  week : Str
  total_count : Nat
  lookback_days : Int
  en_news : List Item
  zh_news : List Item
  all_news : List Item
deriving DecidableEq

/-- Model of `re.sub(r'\s*-\s*[^-]+$', '', title)`: the pattern matches a
run of whitespace, the last hyphen of the string, more whitespace and a
nonempty hyphen-free tail reaching the end; the leftmost such match starts
at the beginning of the maximal whitespace run preceding the last hyphen.
If the string has no hyphen, or ends with its last hyphen, there is no
match and the title is returned unchanged. -/
def stripSourceSuffix (t : Str) : Str :=
  match t.reverse.dropWhile (fun c => !(c == '-')) with
  | [] => t
  | _ :: before =>
    if t.reverse.takeWhile (fun c => !(c == '-')) = [] then t
    else (before.dropWhile isPySpace).reverse

/-- A parsed Google News RSS entry as feedparser hands it to the adapter.
Times are the entry's struct_time values converted to epoch seconds. -/
structure GEntry where
  title : Str
  link : Str
  sourceTitle : Option Str
  pubParsed : Option Int
  updParsed : Option Int
  summary : Str
deriving DecidableEq

/-- Model of get_google_news restricted to its normalization step: the
transport (URL building, feedparser call) is out of scope, so the parsed
feed entries are an argument. A transport failure makes the real function
return [], which corresponds to passing an empty feed. -/
def get_google_news (lang : Str) (num_results : Nat) (feed : List GEntry)
    (now lookback : Int) : List Item :=
  let cutoff := now - lookback * 86400
  (feed.take num_results).filterMap fun e =>
    let pub := (e.pubParsed <|> e.updParsed).getD now
    if pub < cutoff then none
    else some
      { title := stripSourceSuffix e.title
        link := e.link
        source := e.sourceTitle.getD "Unknown".toList
        published := formatYMD pub
        summary := e.summary
        lang := lang
        ts := some pub
        title_zh := none
        ai_summary := none }

/-- One 36kr search result's widget_data. An empty published_at models a
missing/empty field (falsy in Python). -/
structure KEntry where
  title : Str
  id : Str
  published_at : Str
  summary : Str
deriving DecidableEq

/-- Outcome of datetime.fromisoformat on a nonempty published_at string:
a ValueError, a naive datetime, or a timezone-aware datetime. -/
inductive IsoRes where
  | err : IsoRes
  | naive : Int → IsoRes
  | aware : Int → IsoRes
deriving DecidableEq

def mk36krItem (e : KEntry) (pub : Int) : Item :=
  { title := e.title
    link := "https://36kr.com/p/".toList ++ e.id
    source := "36氪".toList
    published := formatYMD pub
    summary := e.summary
    lang := "zh".toList
    ts := some pub
    title_zh := none
    ai_summary := none }

/-- The publish moment of one 36kr entry: now for a falsy published_at,
the fromisoformat result when it parses, else the first ten characters
parsed as a date (or now). The `none` outcome marks a timezone-aware
fromisoformat result: comparing it with the naive cutoff raises TypeError
in Python. -/
def krPub (fromiso : Str → IsoRes) (now : Int) (e : KEntry) : Option Int :=
  if e.published_at = [] then some now
  else match fromiso e.published_at with
    | .naive t => some t
    | .aware _ => none
    | .err =>
      some ((((parse_date_yyyy_mm_dd (e.published_at.take 10)).map dateEpoch)).getD now)

/-- Loop body of get_36kr_news. A TypeError inside the loop is caught by
the adapter's blanket except and turns into an empty overall result; that
is the `none` outcome. -/
def krGo (fromiso : Str → IsoRes) (cutoff now : Int) : List KEntry → Option (List Item)
  | [] => some []
  | e :: es =>
    match krPub fromiso now e with
    | none => none
    | some pub =>
      (krGo fromiso cutoff now es).map fun rest =>
        if pub < cutoff then rest else mk36krItem e pub :: rest

/-- Model of get_36kr_news over the decoded API payload; the transport is
out of scope. As in the source, a failure inside the loop yields []. -/
def get_36kr_news (num_results : Nat) (fromiso : Str → IsoRes) (entries : List KEntry)
    (now lookback : Int) : List Item :=
  (krGo fromiso (now - lookback * 86400) now (entries.take num_results)).getD []

/-- One sspai article record. released_at = 0 models a missing or zero
(falsy) released_at. -/
structure SEntry where
  title : Str
  id : Str
  released_at : Int
  summary : Str
deriving DecidableEq

def sspaiKeywords : List Str :=
  ["AI".toList, "人工智能".toList, "GPT".toList, "金融".toList, "fintech".toList,
   "支付".toList, "银行".toList]

/-- Python substring membership (needle in hay). -/
def strIn (needle : Str) : Str → Bool
  | [] => needle.isPrefixOf []
  | c :: rest => needle.isPrefixOf (c :: rest) || strIn needle rest

def sspaiKwMatch (e : SEntry) : Bool :=
  sspaiKeywords.any fun kw =>
    strIn (kw.map Char.toLower) ((e.title ++ e.summary).map Char.toLower)

def mkSspaiItem (e : SEntry) : Item :=
  { title := e.title
    link := "https://sspai.com/post/".toList ++ e.id
    source := "少数派".toList
    published := formatYMD e.released_at
    summary := e.summary
    lang := "zh".toList
    ts := some e.released_at
    title_zh := none
    ai_summary := none }

/-- Loop of get_sspai_news: keyword-filter, skip falsy released_at, skip
items before the cutoff, and stop once num_results items are collected
(the break fires after the append, so a 0 budget still yields one item,
exactly as in the source). -/
def sspaiGo (cutoff : Int) (budget : Nat) : List SEntry → List Item
  | [] => []
  | e :: es =>
    if sspaiKwMatch e then
      if e.released_at = 0 then sspaiGo cutoff budget es
      else if e.released_at < cutoff then sspaiGo cutoff budget es
      else mkSspaiItem e :: (if budget ≤ 1 then [] else sspaiGo cutoff (budget - 1) es)
    else sspaiGo cutoff budget es

/-- Model of get_sspai_news over the decoded API payload. -/
def get_sspai_news (num_results : Nat) (entries : List SEntry)
    (now lookback : Int) : List Item :=
  sspaiGo (now - lookback * 86400) num_results entries

/-- Fingerprint used by deduplicate_news: news["title"][:30].lower(). -/
def fp (it : Item) : Str := (it.title.take 30).map Char.toLower

/-- Loop of deduplicate_news with its seen_titles set. -/
def dedupGo (seen : List Str) : List Item → List Item
  | [] => []
  | x :: xs =>
    if fp x ∈ seen then dedupGo seen xs
    else x :: dedupGo (fp x :: seen) xs

/-- Model of deduplicate_news. -/
def deduplicate_news (l : List Item) : List Item := dedupGo [] l

/-- Specification-side restatement of deduplication ("retains the first
occurrence of each fingerprint in input order and discards later ones"),
used to compare the source's seen-set loop against the spec's words. -/
def dedupeSpec : List Item → List Item
  | [] => []
  | x :: xs => x :: dedupeSpec (xs.filter fun y => !(fp y == fp x))
termination_by l => l.length
decreasing_by
  simpa using Nat.lt_succ_of_le (List.length_filter_le _ _)

/-- The publish moment filter_recent_news compares against the cutoff:
the "_published_ts" key if present, else the parsed "published" date at
local midnight, else now. -/
def effTime (now : Int) (it : Item) : Int :=
  match it.ts with
  | some t => t
  | none =>
    match parse_date_yyyy_mm_dd it.published with
    | some ymd => dateEpoch ymd
    | none => now

/-- Model of filter_recent_news (LOOKBACK_DAYS and datetime.now() made
explicit arguments). -/
def filter_recent_news (lookback now : Int) : List Item → List Item
  | [] => []
  | it :: rest =>
    if now - lookback * 86400 ≤ effTime now it then
      it :: filter_recent_news lookback now rest
    else filter_recent_news lookback now rest

/-- Sort key of the final sort: x.get("_published_ts", 0). -/
def keyD (it : Item) : Int := it.ts.getD 0

/-- Stable descending insertion: x is placed before the first element
whose key is not larger, so elements equal in key keep input order; as a
function this coincides with Python's stable list.sort(key, reverse=True). -/
def insTs (x : Item) : List Item → List Item
  | [] => [x]
  | y :: ys => if keyD x < keyD y then y :: insTs x ys else x :: y :: ys

def sortTsDesc : List Item → List Item
  | [] => []
  | x :: xs => insTs x (sortTsDesc xs)

def en_queries : List Str :=
  ["AI fintech".toList, "artificial intelligence finance".toList,
   "AI banking technology".toList, "LLM financial services".toList]

def zh_queries : List Str :=
  ["AI 金融科技".toList, "人工智能 银行".toList, "大模型 金融应用".toList]

/-- The concatenated adapter output of fetch_all_news in call order:
English Google News queries, Chinese Google News queries, 36kr, sspai.
googleFeed gives the parsed feed for a (query, language) pair. -/
def allConcat (googleFeed : Str → Str → List GEntry) (fromiso : Str → IsoRes)
    (kr : List KEntry) (sp : List SEntry) (now lookback : Int) : List Item :=
  (en_queries.map fun q => get_google_news "en".toList 5 (googleFeed q "en".toList) now lookback).flatten
    ++ (zh_queries.map fun q => get_google_news "zh".toList 5 (googleFeed q "zh".toList) now lookback).flatten
    ++ get_36kr_news 5 fromiso kr now lookback
    ++ get_sspai_news 5 sp now lookback

def MAX_TOTAL_NEWS : Nat := 20

def aggDeduped (googleFeed : Str → Str → List GEntry) (fromiso : Str → IsoRes)
    (kr : List KEntry) (sp : List SEntry) (now lookback : Int) : List Item :=
  deduplicate_news (allConcat googleFeed fromiso kr sp now lookback)

def aggRecent (googleFeed : Str → Str → List GEntry) (fromiso : Str → IsoRes)
    (kr : List KEntry) (sp : List SEntry) (now lookback : Int) : List Item :=
  filter_recent_news lookback now (aggDeduped googleFeed fromiso kr sp now lookback)

def aggSorted (googleFeed : Str → Str → List GEntry) (fromiso : Str → IsoRes)
    (kr : List KEntry) (sp : List SEntry) (now lookback : Int) : List Item :=
  sortTsDesc (aggRecent googleFeed fromiso kr sp now lookback)

def aggCapped (googleFeed : Str → Str → List GEntry) (fromiso : Str → IsoRes)
    (kr : List KEntry) (sp : List SEntry) (now lookback : Int) : List Item :=
  (aggSorted googleFeed fromiso kr sp now lookback).take MAX_TOTAL_NEWS

/-- Removal of the internal "_published_ts" key (n.pop). -/
def stripTs (n : Item) : Item := { n with ts := none }

/-- Model of fetch_all_news. The en_news/zh_news partitions are computed
before the pop loop in the source but hold the same dictionary objects as
all_news, so the pop strips them too; functionally that is a stripTs map
over each partition. -/
def fetch_all_news (googleFeed : Str → Str → List GEntry) (fromiso : Str → IsoRes)
    (kr : List KEntry) (sp : List SEntry) (now lookback : Int) : Dataset :=
  let capped := aggCapped googleFeed fromiso kr sp now lookback
  { fetch_date := formatYMD now
    week := formatWeek now
    total_count := capped.length
    lookback_days := lookback
    en_news := (capped.filter fun n => n.lang == "en".toList).map stripTs
    zh_news := (capped.filter fun n => n.lang == "zh".toList).map stripTs
    all_news := capped.map stripTs }

/-! Definitions for scripts/summarize.py. The OpenAI client construction
and the two chat-completion calls are collaborator boundaries (§6 of the
spec): get_client is an Except-valued argument (its construction raises
when no API key is configured) and the model call is a prompt-to-text
function returning Except (the error is the stringified exception). The
markdown_to_html transform is passed in opaquely; no claim constrains it,
and every theorem below quantifies over it. -/

/-- The digest dictionary written by generate_summary; Option fields are
keys that only some paths produce. -/
structure WeeklyDigest where
  week : Str
  generated_at : Str
  summary : Str
  summary_raw : Option Str
  model : Str
  news_count : Nat
  error : Option Str
deriving DecidableEq

/-- The prompt-side truncation in format_news_for_prompt: the first 200
characters plus an ellipsis when the summary is longer than 200. -/
def promptTrunc (s : Str) : Str :=
  if 200 < s.length then s.take 200 ++ "...".toList else s

/-- enumerate(l, 1). -/
def enum1 (l : List Item) : List (Nat × Item) :=
  ((List.range l.length).map (fun i => i + 1)).zip l

/-- The lines contributed by one news item to the prompt listing. -/
def newsLines (i : Nat) (n : Item) : List Str :=
  [natDigits i ++ ". [".toList ++ n.lang.map Char.toUpper ++ "] ".toList ++ n.title,
   "   Source: ".toList ++ n.source ++ " | Date: ".toList ++ n.published]
  ++ (if n.summary = [] then [] else ["   Summary: ".toList ++ promptTrunc n.summary])
  ++ [[]]

/-- Model of format_news_for_prompt. -/
def format_news_for_prompt (d : Dataset) : Str :=
  List.intercalate "\n".toList ((enum1 d.all_news).flatMap fun p => newsLines p.1 p.2)

def weeklyPromptHead : Str :=
  "你是一位专业的金融科技分析师。请根据以下本周收集的 AI 在金融领域应用的新闻，撰写一份周报总结。\n\n新闻列表：\n".toList

def weeklyPromptTail : Str :=
  "\n\n请按以下格式输出（使用 Markdown 格式）：\n\n## 本周概要\n\n用 3-5 句话总结本周 AI 金融领域的整体动态和重要趋势。每句话单独一行，便于阅读。\n\n## 重点新闻解读\n\n挑选 3-5 条最重要的新闻，每条用 2-3 句话解读其意义和影响：\n\n- **新闻标题1**：解读内容...\n- **新闻标题2**：解读内容...\n\n## 趋势观察\n\n基于本周新闻，总结 1-2 个值得关注的发展趋势。\n\n注意：\n- 保持客观专业的语调\n- 突出实际应用和商业价值\n- 段落之间要有空行，便于阅读\n- 如果新闻较少或质量不高，诚实说明\n".toList

/-- The user prompt built by generate_weekly_summary. -/
def weeklyPrompt (d : Dataset) : Str :=
  weeklyPromptHead ++ format_news_for_prompt d ++ weeklyPromptTail

/-- The canned fallback summary markup of generate_summary's except path. -/
def fallbackSummary (n : Nat) (e : Str) : Str :=
  "<h2>本周概要</h2><p>本周收集了 ".toList ++ natDigits n
    ++ " 条 AI 金融相关新闻。由于总结生成失败，请直接查看下方新闻列表。</p><p>错误信息: ".toList
    ++ e ++ "</p>".toList

/-- Model of generate_summary. get_client runs before the try block, so a
client-construction failure escapes as an error; inside the try, a failing
model call is caught and turned into the fallback digest, whose dictionary
has no "summary_raw" key and carries model="fallback" and the error. -/
def generate_summary (md2html : Str → Str) (modelName nowIso : Str)
    (clientRes : Except Str Unit) (llm : Str → Except Str Str)
    (d : Dataset) : Except Str WeeklyDigest :=
  match clientRes with
  | .error e => .error e
  | .ok _ =>
    match llm (weeklyPrompt d) with
    | .ok text =>
      .ok { week := d.week
            generated_at := nowIso
            summary := md2html text
            summary_raw := some text
            model := modelName
            news_count := d.all_news.length
            error := none }
    | .error e =>
      .ok { week := d.week
            generated_at := nowIso
            summary := fallbackSummary d.all_news.length e
            summary_raw := none
            model := "fallback".toList
            news_count := d.all_news.length
            error := some e }

/-- One element of the "results" array parsed out of the enrichment
response; any of the keys may be missing. -/
structure EnhResult where
  index : Option Int
  title_zh : Option Str
  ai_summary : Option Str
deriving DecidableEq

/-- Application of one enhancement record at a (validated) position:
title_zh defaults to the item's title and ai_summary to "" when the
response omits them, both overwriting any prior value. -/
def setEnh (r : EnhResult) : Nat → List Item → List Item
  | _, [] => []
  | 0, x :: xs =>
    { x with title_zh := some (r.title_zh.getD x.title)
             ai_summary := some (r.ai_summary.getD []) } :: xs
  | Nat.succ k, x :: xs => x :: setEnh r k xs

/-- One iteration of the merge loop. A missing index or an index ≥ len is
skipped; a negative index wraps Python-style, and one below -len raises
IndexError, which the surrounding try converts into the fallback path
(the `.error` outcome). -/
def applyOne (all : List Item) (r : EnhResult) : Except Unit (List Item) :=
  match r.index with
  | none => .ok all
  | some idx =>
    if idx < (all.length : Int) then
      if 0 ≤ idx then .ok (setEnh r idx.toNat all)
      else if 0 ≤ idx + (all.length : Int) then .ok (setEnh r (idx + (all.length : Int)).toNat all)
      else .error ()
    else .ok all

/-- The whole merge loop; on an IndexError the updates already applied
stay in place (the list is mutated in place in the source) and the failure
flag is raised. -/
def applyAll (all : List Item) : List EnhResult → List Item × Bool
  | [] => (all, false)
  | r :: rs =>
    match applyOne all r with
    | .ok all2 => applyAll all2 rs
    | .error _ => (all, true)

/-- The partition write-through loop of the success path: for each item of
all_news satisfying cond (lang == "en" for en_news, its negation for
zh_news), every partition entry with the same title receives that item's
title_zh and ai_summary, with "" defaults. -/
def syncPart (all : List Item) (cond : Item → Bool) (part : List Item) : List Item :=
  all.foldl
    (fun acc news =>
      if cond news then
        acc.map fun p =>
          if p.title == news.title then
            { p with title_zh := some (news.title_zh.getD [])
                     ai_summary := some (news.ai_summary.getD []) }
          else p
      else acc)
    part

/-- The except-path defaulting of enhance_news_data: fill title_zh with
the item's title and ai_summary with the summary truncated to 100
characters (empty when there is no summary), touching only missing keys. -/
def fillMissing (n : Item) : Item :=
  { n with title_zh := some (n.title_zh.getD n.title)
           ai_summary := some (n.ai_summary.getD (n.summary.take 100)) }

/-- Model of enhance_news_data. get_client again runs outside the try;
enh is the outcome of generate_news_enhancements (the model call plus the
JSON-extraction chain), .error covering both a raising call and an
unparseable response. -/
def enhance_news_data (clientRes : Except Str Unit) (enh : Except Str (List EnhResult))
    (d : Dataset) : Except Str Dataset :=
  match clientRes with
  | .error e => .error e
  | .ok _ =>
    if d.all_news = [] then .ok d
    else
      match enh with
      | .error _ => .ok { d with all_news := d.all_news.map fillMissing }
      | .ok results =>
        match applyAll d.all_news results with
        | (all2, true) => .ok { d with all_news := all2.map fillMissing }
        | (all2, false) =>
          .ok { d with
                all_news := all2
                en_news := syncPart all2 (fun n => n.lang == "en".toList) d.en_news
                zh_news := syncPart all2 (fun n => !(n.lang == "en".toList)) d.zh_news }

/-! Concrete fixtures used by counterexamples and witnesses. -/

/-- A news item carrying only a title, as in the spec's dedup example. -/
def mkSimpleItem (t : Str) : Item :=
  { title := t, link := [], source := [], published := [], summary := [],
    lang := "en".toList, ts := none, title_zh := none, ai_summary := none }

def itemFooTool : Item :=
  mkSimpleItem "Foo Bank Launches New AI Credit Scoring Tool".toList

def itemFooSystem : Item :=
  mkSimpleItem "Foo Bank Launches New AI Credit Scoring System".toList

/-- The raw feed entry used for the C2 refutation: its title consists only
of a " - publisher" style suffix. -/
def gEntryEmptyTitle : GEntry :=
  { title := "- Reuters".toList, link := [], sourceTitle := none,
    pubParsed := some 0, updParsed := none, summary := [] }

/-- The feed entry used to witness C2's amended statement. -/
def gEntryW : GEntry :=
  { title := "AI Startup Raises Money - TechCrunch".toList, link := [],
    sourceTitle := none, pubParsed := some 0, updParsed := none, summary := [] }

/-- The item the adapter produces from gEntryW. -/
def itemW : Item :=
  { title := "AI Startup Raises Money".toList, link := [],
    source := "Unknown".toList, published := "1970-01-01".toList, summary := [],
    lang := "en".toList, ts := some 0, title_zh := none, ai_summary := none }

/-- The raw feed entry used for the C3 refutation: a 250-character
provider snippet. -/
def gEntryLongSummary : GEntry :=
  { title := "T".toList, link := [], sourceTitle := none, pubParsed := some 0,
    updParsed := none, summary := List.replicate 250 'a' }

/-- A dataset with no items, used at concrete evaluation points. -/
def emptyDataset : Dataset :=
  { fetch_date := [], week := "2025-W40".toList, total_count := 0,
    lookback_days := 7, en_news := [], zh_news := [], all_news := [] }

/-- The single-item dataset whose item has an empty title, reachable
through the unguarded title stripping of the feed adapter. -/
def itemEmptyTitle : Item :=
  { title := [], link := [], source := [], published := [], summary := [],
    lang := "en".toList, ts := none, title_zh := none, ai_summary := none }

def dsEmptyTitle : Dataset :=
  { fetch_date := [], week := [], total_count := 1, lookback_days := 7,
    en_news := [itemEmptyTitle], zh_news := [], all_news := [itemEmptyTitle] }

/-! Lemmas about deduplicate_news. -/

theorem dedupeSpec_nil : dedupeSpec [] = [] := by
  rw [dedupeSpec]

theorem dedupeSpec_cons (x : Item) (xs : List Item) :
    dedupeSpec (x :: xs) = x :: dedupeSpec (xs.filter fun y => !(fp y == fp x)) := by
  rw [dedupeSpec]

theorem dedupGo_congr (xs : List Item) :
    ∀ s t : List Str, (∀ a, a ∈ s ↔ a ∈ t) → dedupGo s xs = dedupGo t xs := by
  induction xs with
  | nil => intro s t _; rfl
  | cons x xs ih =>
    intro s t hst
    by_cases hx : fp x ∈ s
    · rw [dedupGo, dedupGo, if_pos hx, if_pos ((hst _).mp hx), ih s t hst]
    · rw [dedupGo, dedupGo, if_neg hx, if_neg (fun h => hx ((hst _).mpr h))]
      refine congrArg _ (ih _ _ fun a => ?_)
      simp only [List.mem_cons]
      exact or_congr Iff.rfl (hst a)

theorem dedupGo_cons_key (k : Str) (xs : List Item) :
    ∀ seen : List Str,
      dedupGo (k :: seen) xs = dedupGo seen (xs.filter fun y => !(fp y == k)) := by
  induction xs with
  | nil => intro seen; rfl
  | cons x xs ih =>
    intro seen
    by_cases hk : fp x = k
    · have hmem : fp x ∈ k :: seen := by simp [hk]
      rw [dedupGo, if_pos hmem, ih seen]
      have hfilter : (x :: xs).filter (fun y => !(fp y == k))
          = xs.filter fun y => !(fp y == k) := by
        simp [List.filter, hk]
      rw [hfilter]
    · have hbeq : (fp x == k) = false := beq_eq_false_iff_ne.mpr hk
      have hfilter : (x :: xs).filter (fun y => !(fp y == k))
          = x :: xs.filter fun y => !(fp y == k) := by
        simp [List.filter, hbeq]
      rw [hfilter]
      by_cases hs : fp x ∈ seen
      · have hmem : fp x ∈ k :: seen := by simp [hs]
        rw [dedupGo, if_pos hmem, dedupGo, if_pos hs, ih seen]
      · have hmem : fp x ∉ k :: seen := by simp [hk, hs]
        rw [dedupGo, if_neg hmem, dedupGo, if_neg hs]
        refine congrArg _ ?_
        rw [dedupGo_congr xs (fp x :: k :: seen) (k :: fp x :: seen)
          (by intro a; simp; tauto)]
        exact ih (fp x :: seen)

theorem dedupGo_sublist (xs : List Item) :
    ∀ seen : List Str, List.Sublist (dedupGo seen xs) xs := by
  induction xs with
  | nil => intro seen; exact List.Sublist.refl _
  | cons x xs ih =>
    intro seen
    by_cases hx : fp x ∈ seen
    · rw [dedupGo, if_pos hx]
      exact (ih seen).cons x
    · rw [dedupGo, if_neg hx]
      exact (ih _).cons₂ x

theorem deduplicate_eq_spec_aux :
    ∀ (n : Nat) (l : List Item), l.length ≤ n → deduplicate_news l = dedupeSpec l := by
  intro n
  induction n with
  | zero =>
    intro l hl
    rw [List.length_eq_zero.mp (Nat.le_zero.mp hl), dedupeSpec_nil]
    rfl
  | succ n ih =>
    intro l hl
    match l with
    | [] => rw [dedupeSpec_nil]; rfl
    | x :: xs =>
      have h1 : deduplicate_news (x :: xs) = x :: dedupGo [fp x] xs := by
        simp [deduplicate_news, dedupGo]
      rw [h1, dedupGo_cons_key (fp x) xs []]
      have h2 : (xs.filter fun y => !(fp y == fp x)).length ≤ n :=
        le_trans (List.length_filter_le _ _) (Nat.lt_succ_iff.mp hl)
      have h3 := ih _ h2
      rw [show dedupGo [] (xs.filter fun y => !(fp y == fp x))
          = deduplicate_news (xs.filter fun y => !(fp y == fp x)) from rfl, h3]
      rw [dedupeSpec_cons]

theorem deduplicate_eq_spec (l : List Item) : deduplicate_news l = dedupeSpec l :=
  deduplicate_eq_spec_aux l.length l le_rfl

theorem filter_fp_comm (p q : Str → Bool) (l : List Item) :
    (l.filter fun y => p (fp y)).filter (fun y => q (fp y))
      = (l.filter fun y => q (fp y)).filter fun y => p (fp y) := by
  rw [List.filter_filter, List.filter_filter]
  refine List.filter_congr fun y _ => ?_
  exact Bool.and_comm _ _

theorem dedupeSpec_filter_aux (p : Str → Bool) :
    ∀ (n : Nat) (l : List Item), l.length ≤ n →
      (dedupeSpec l).filter (fun y => p (fp y))
        = dedupeSpec (l.filter fun y => p (fp y)) := by
  intro n
  induction n with
  | zero =>
    intro l hl
    rw [List.length_eq_zero.mp (Nat.le_zero.mp hl)]
    simp [dedupeSpec_nil]
  | succ n ih =>
    intro l hl
    match l with
    | [] => simp [dedupeSpec_nil]
    | x :: xs =>
      have hlen : (xs.filter fun y => !(fp y == fp x)).length ≤ n :=
        le_trans (List.length_filter_le _ _) (Nat.lt_succ_iff.mp hl)
      rw [dedupeSpec_cons]
      by_cases hp : p (fp x) = true
      · have hLHS : (x :: dedupeSpec (xs.filter fun y => !(fp y == fp x))).filter
              (fun y => p (fp y))
            = x :: (dedupeSpec (xs.filter fun y => !(fp y == fp x))).filter
              fun y => p (fp y) := by
          simp [List.filter, hp]
        have hRHS : (x :: xs).filter (fun y => p (fp y))
            = x :: xs.filter fun y => p (fp y) := by
          simp [List.filter, hp]
        rw [hLHS, hRHS, ih _ hlen, dedupeSpec_cons]
        refine congrArg _ (congrArg _ ?_)
        exact filter_fp_comm (fun k => !(k == fp x)) p xs
      · have hp2 : p (fp x) = false := by
          cases hpx : p (fp x) with
          | true => exact absurd hpx hp
          | false => rfl
        have hLHS : (x :: dedupeSpec (xs.filter fun y => !(fp y == fp x))).filter
              (fun y => p (fp y))
            = (dedupeSpec (xs.filter fun y => !(fp y == fp x))).filter
              fun y => p (fp y) := by
          simp [List.filter, hp2]
        have hRHS : (x :: xs).filter (fun y => p (fp y))
            = xs.filter fun y => p (fp y) := by
          simp [List.filter, hp2]
        rw [hLHS, hRHS, ih _ hlen]
        refine congrArg _ ?_
        rw [List.filter_filter]
        refine List.filter_congr fun y _ => ?_
        by_cases hy : p (fp y) = true
        · have : fp y ≠ fp x := fun hEq => by rw [hEq, hp2] at hy; exact Bool.noConfusion hy
          simp [hy, this]
        · have hy2 : p (fp y) = false := by
            cases hpy : p (fp y) with
            | true => exact absurd hpy hy
            | false => rfl
          simp [hy2]

theorem dedupeSpec_filter (p : Str → Bool) (l : List Item) :
    (dedupeSpec l).filter (fun y => p (fp y))
      = dedupeSpec (l.filter fun y => p (fp y)) :=
  dedupeSpec_filter_aux p l.length l le_rfl

theorem dedupeSpec_idem_aux :
    ∀ (n : Nat) (l : List Item), l.length ≤ n →
      dedupeSpec (dedupeSpec l) = dedupeSpec l := by
  intro n
  induction n with
  | zero =>
    intro l hl
    rw [List.length_eq_zero.mp (Nat.le_zero.mp hl)]
    rw [dedupeSpec_nil, dedupeSpec_nil]
  | succ n ih =>
    intro l hl
    match l with
    | [] => rw [dedupeSpec_nil, dedupeSpec_nil]
    | x :: xs =>
      have hlen : (xs.filter fun y => !(fp y == fp x)).length ≤ n :=
        le_trans (List.length_filter_le _ _) (Nat.lt_succ_iff.mp hl)
      rw [dedupeSpec_cons, dedupeSpec_cons]
      refine congrArg _ ?_
      rw [dedupeSpec_filter (fun k => !(k == fp x))]
      have hff : ((xs.filter fun y => !(fp y == fp x)).filter fun y => !(fp y == fp x))
          = xs.filter fun y => !(fp y == fp x) := by
        rw [List.filter_filter]
        refine List.filter_congr fun y _ => ?_
        exact Bool.and_self _
      rw [hff]
      exact ih _ hlen

theorem dedupeSpec_idem (l : List Item) :
    dedupeSpec (dedupeSpec l) = dedupeSpec l :=
  dedupeSpec_idem_aux l.length l le_rfl

/-- C4: deduplicate_news fingerprints each item by the lowercase of the
first 30 characters of its title, retains exactly the first occurrence of
each fingerprint in input order (it equals the keep-first specification
dedupeSpec and is a subsequence of its input), and on a two-element list
whose titles agree on the lowercased 30-character prefix it returns only
the first item — in particular on the spec's Foo Bank example pair. -/
theorem claim4_dedupe_first_occurrence :
    (∀ l : List Item, deduplicate_news l = dedupeSpec l)
  ∧ (∀ l : List Item, List.Sublist (deduplicate_news l) l)
  ∧ (∀ a b : Item, fp a = fp b → deduplicate_news [a, b] = [a])
  ∧ deduplicate_news [itemFooTool, itemFooSystem] = [itemFooTool] := by
  refine ⟨deduplicate_eq_spec, fun l => dedupGo_sublist l [], ?_, ?_⟩
  · intro a b hab
    simp [deduplicate_news, dedupGo, hab]
  · decide

/-- Witness for C4 at the spec's concrete Foo Bank pair: the fingerprint
hypothesis is discharged by computation. -/
theorem claim4_witness :
    deduplicate_news [itemFooTool, itemFooSystem] = [itemFooTool] :=
  claim4_dedupe_first_occurrence.2.2.1 itemFooTool itemFooSystem (by decide)

/-- C10: deduplication is idempotent — applying deduplicate_news to its
own output returns that output unchanged, for every input sequence. -/
theorem claim10_dedupe_idempotent (l : List Item) :
    deduplicate_news (deduplicate_news l) = deduplicate_news l := by
  rw [deduplicate_eq_spec, deduplicate_eq_spec, dedupeSpec_idem]

/-! Lemmas about the title-stripping step and the Google News adapter. -/

theorem stripSourceSuffix_isPrefix (t : Str) : stripSourceSuffix t <+: t := by
  unfold stripSourceSuffix
  split
  · exact List.prefix_refl t
  · next hd before h =>
    split
    · exact List.prefix_refl t
    · have hsuf : before.dropWhile isPySpace <:+ t.reverse := by
        refine List.IsSuffix.trans (List.dropWhile_suffix isPySpace) ?_
        refine List.IsSuffix.trans ?_ (List.dropWhile_suffix fun c => !(c == '-'))
        rw [h]
        exact List.tail_suffix (hd :: before)
      have hp := List.reverse_prefix.mpr hsuf
      rwa [List.reverse_reverse] at hp

/-- Every output item of the Google News adapter is the canonical mapping
of some feed entry. -/
theorem get_google_news_mem (lang : Str) (nr : Nat) (feed : List GEntry)
    (now lookback : Int) (it : Item)
    (hmem : it ∈ get_google_news lang nr feed now lookback) :
    ∃ e ∈ feed, it =
      { title := stripSourceSuffix e.title
        link := e.link
        source := e.sourceTitle.getD "Unknown".toList
        published := formatYMD ((e.pubParsed <|> e.updParsed).getD now)
        summary := e.summary
        lang := lang
        ts := some ((e.pubParsed <|> e.updParsed).getD now)
        title_zh := none
        ai_summary := none } := by
  rw [get_google_news] at hmem
  simp only [List.mem_filterMap] at hmem
  obtain ⟨e, he, hfe⟩ := hmem
  refine ⟨e, List.mem_of_mem_take he, ?_⟩
  split at hfe
  · exact absurd hfe (by simp)
  · injection hfe with h2
    rw [← h2]

/-- C2 counterexample: the adapter strips unconditionally, so a nonempty
raw title consisting only of the suffix yields an item whose stored title
is empty — the original title is not kept. -/
theorem claim2_counterexample :
    gEntryEmptyTitle.title ≠ []
  ∧ (get_google_news "en".toList 10 [gEntryEmptyTitle] 0 0).map (fun it => it.title)
      = [[]] := by
  constructor
  · decide
  · decide

/-- C2 (amended): the feed adapter's stored title is the raw title with
the trailing " - publisher" suffix removed unconditionally; the stored
title is always a prefix of the raw title, and when the raw title consists
only of such a suffix the stored title is the empty string (there is no
guard restoring the original). -/
theorem claim2_amended_strip_unguarded :
    (∀ (lang : Str) (nr : Nat) (feed : List GEntry) (now lookback : Int),
      ∀ it ∈ get_google_news lang nr feed now lookback,
        ∃ e ∈ feed, it.title = stripSourceSuffix e.title)
  ∧ (∀ t : Str, stripSourceSuffix t <+: t)
  ∧ stripSourceSuffix "- Reuters".toList = [] := by
  refine ⟨?_, stripSourceSuffix_isPrefix, by decide⟩
  intro lang nr feed now lookback it hmem
  obtain ⟨e, he, hit⟩ := get_google_news_mem lang nr feed now lookback it hmem
  exact ⟨e, he, by rw [hit]⟩

/-- Witness for C2's amended statement at a concrete feed. -/
theorem claim2_witness :
    ∃ e ∈ [gEntryW], itemW.title = stripSourceSuffix e.title :=
  claim2_amended_strip_unguarded.1 "en".toList 10 [gEntryW] 0 0 itemW (by decide)

set_option maxRecDepth 4096 in
/-- C3 counterexample: the adapter stores the provider snippet verbatim —
an item whose snippet has 250 characters is stored with all 250 characters
and no ellipsis, so the stored summary is not truncated to 200. -/
theorem claim3_counterexample :
    (get_google_news "en".toList 10 [gEntryLongSummary] 0 0).map (fun it => it.summary)
      = [List.replicate 250 'a']
  ∧ 200 < (List.replicate 250 'a' : Str).length
  ∧ promptTrunc (List.replicate 250 'a') ≠ List.replicate 250 'a' := by
  refine ⟨by decide, by decide, by decide⟩

/-- C3 (amended): the stored summary of every adapter item is the provider
snippet verbatim; the 200-character-with-ellipsis truncation exists but is
applied only by format_news_for_prompt's helper when building the digest
prompt: its output never exceeds 203 characters, is the identity on
summaries of at most 200 characters, and on longer summaries is the first
200 characters followed by an ellipsis. -/
theorem claim3_amended_summary_stored_verbatim :
    (∀ (lang : Str) (nr : Nat) (feed : List GEntry) (now lookback : Int),
      ∀ it ∈ get_google_news lang nr feed now lookback,
        ∃ e ∈ feed, it.summary = e.summary)
  ∧ (∀ s : Str, (promptTrunc s).length ≤ 203)
  ∧ (∀ s : Str, s.length ≤ 200 → promptTrunc s = s)
  ∧ (∀ s : Str, 200 < s.length →
      promptTrunc s = s.take 200 ++ "...".toList ∧ (promptTrunc s).length = 203) := by
  refine ⟨?_, ?_, ?_, ?_⟩
  · intro lang nr feed now lookback it hmem
    obtain ⟨e, he, hit⟩ := get_google_news_mem lang nr feed now lookback it hmem
    exact ⟨e, he, by rw [hit]⟩
  · intro s
    rw [promptTrunc]
    split
    · rw [List.length_append, List.length_take]
      simp
    · next hle =>
      omega
  · intro s hs
    rw [promptTrunc, if_neg (by omega)]
  · intro s hs
    rw [promptTrunc, if_pos hs]
    refine ⟨rfl, ?_⟩
    rw [List.length_append, List.length_take]
    have hmin : min 200 s.length = 200 := by omega
    rw [hmin]
    decide

set_option maxRecDepth 4096 in
/-- Witness for C3's amended statement: a 201-character summary is
truncated to its first 200 characters plus an ellipsis. -/
theorem claim3_witness :
    promptTrunc (List.replicate 201 'b')
        = (List.replicate 201 'b' : Str).take 200 ++ "...".toList
      ∧ (promptTrunc (List.replicate 201 'b')).length = 203 :=
  claim3_amended_summary_stored_verbatim.2.2.2 (List.replicate 201 'b') (by decide)

/-! Lemmas and claim for filter_recent_news (C6). -/

/-- The retention loop of filter_recent_news is a List.filter over the
effective publish time. -/
theorem filter_recent_news_eq (lookback now : Int) (items : List Item) :
    filter_recent_news lookback now items
      = items.filter fun it => decide (now - lookback * 86400 ≤ effTime now it) := by
  induction items with
  | nil => rfl
  | cons it rest ih =>
    by_cases h : now - lookback * 86400 ≤ effTime now it
    · rw [filter_recent_news, if_pos h, ih,
        List.filter_cons_of_pos (by simpa using h)]
    · rw [filter_recent_news, if_neg h, ih,
        List.filter_cons_of_neg (by simpa using h)]

/-- C6: filter_recent_news is (the model of) a pure total function, equal
to a List.filter retaining exactly the items whose effective publish time
— the "_published_ts" key, else the "published" date parsed as local
midnight, else now — is at least now minus lookback days; for a
nonnegative lookback an item lacking both time fields is always retained. -/
theorem claim6_filter_recent (lookback now : Int) (items : List Item) :
    filter_recent_news lookback now items
      = items.filter (fun it => decide (now - lookback * 86400 ≤ effTime now it))
  ∧ (0 ≤ lookback → ∀ it ∈ items, it.ts = none →
      parse_date_yyyy_mm_dd it.published = none →
      it ∈ filter_recent_news lookback now items) := by
  have hfilter := filter_recent_news_eq lookback now items
  refine ⟨hfilter, ?_⟩
  intro hlb it hmem hts hpd
  rw [hfilter]
  refine List.mem_filter.mpr ⟨hmem, ?_⟩
  have heff : effTime now it = now := by
    rw [effTime, hts, hpd]
  rw [heff]
  simp only [decide_eq_true_eq]
  have : 0 ≤ lookback * 86400 := mul_nonneg hlb (by norm_num)
  omega

/-- Witness for C6 at a concrete item lacking both time fields. -/
theorem claim6_witness :
    mkSimpleItem "X".toList ∈ filter_recent_news 7 0 [mkSimpleItem "X".toList] :=
  (claim6_filter_recent 7 0 [mkSimpleItem "X".toList]).2 (by decide)
    (mkSimpleItem "X".toList) (by simp) rfl rfl

/-! Claims about generate_summary (C1) and enhance_news_data (C5). -/

/-- C1 counterexample: when the model call fails, the digest dictionary is
built without a "summary_raw" key; and when the client construction fails
(it runs before the try block), generate_summary raises instead of
returning a digest. Both contradict the claim that the returned record
always carries summary_raw and that the operation never raises. -/
theorem claim1_counterexample :
    (generate_summary (fun s => s) "m".toList "t".toList (.ok ())
        (fun _ => .error "boom".toList) emptyDataset).map (fun dg => dg.summary_raw)
      = .ok none
  ∧ generate_summary (fun s => s) "m".toList "t".toList
      (.error "no api key".toList) (fun _ => .error "boom".toList) emptyDataset
      = .error "no api key".toList := by
  exact ⟨rfl, rfl⟩

/-- C1 (amended): provided the client construction succeeds,
generate_summary never raises — for every markup transform, model name,
timestamp, model-call outcome and dataset it returns a digest whose week
is the dataset's week, whose generated_at is the run timestamp and whose
news_count is the number of dataset items; the summary_raw and error keys
and the fallback model marker are determined by the model-call outcome:
on success summary_raw is the raw text and there is no error key, on
failure summary_raw is absent, the model is "fallback" and the error key
carries the failure. -/
theorem claim1_amended_digest_wellformed (md2html : Str → Str)
    (modelName nowIso : Str) (llm : Str → Except Str Str) (d : Dataset) :
    ∃ dg : WeeklyDigest,
      generate_summary md2html modelName nowIso (.ok ()) llm d = .ok dg
      ∧ dg.week = d.week
      ∧ dg.generated_at = nowIso
      ∧ dg.news_count = d.all_news.length
      ∧ dg.summary_raw = (match llm (weeklyPrompt d) with
          | .ok t => some t
          | .error _ => none)
      ∧ dg.error = (match llm (weeklyPrompt d) with
          | .ok _ => none
          | .error e => some e)
      ∧ dg.model = (match llm (weeklyPrompt d) with
          | .ok _ => modelName
          | .error _ => "fallback".toList) := by
  cases h : llm (weeklyPrompt d) with
  | ok t =>
    refine ⟨{ week := d.week, generated_at := nowIso, summary := md2html t,
              summary_raw := some t, model := modelName,
              news_count := d.all_news.length, error := none },
      ?_, rfl, rfl, rfl, rfl, rfl, rfl⟩
    rw [generate_summary, h]
  | error e =>
    refine ⟨{ week := d.week, generated_at := nowIso,
              summary := fallbackSummary d.all_news.length e,
              summary_raw := none, model := "fallback".toList,
              news_count := d.all_news.length, error := some e },
      ?_, rfl, rfl, rfl, rfl, rfl, rfl⟩
    rw [generate_summary, h]

/-- C5 counterexample: when enrichment fails wholesale on a dataset whose
single item has an empty title and no prior translation, the fallback sets
the translated title to the empty original title — it is defined but
empty, contradicting the claimed non-emptiness. -/
theorem claim5_counterexample :
    (enhance_news_data (.ok ()) (.error "boom".toList) dsEmptyTitle).map
        (fun d => d.all_news.map fun n => n.title_zh)
      = .ok [some []] := by
  rfl

/-- C5 (amended): if the enrichment call fails entirely (and the client
was constructed), the dataset comes back with every flat-list item passed
through the uniform fallback: titleTranslated is defined — the
pre-existing value when present, else the item's original title, hence
non-empty whenever the original title is non-empty — and aiSummary is
defined — the pre-existing value when present, else the original summary
truncated to 100 characters, empty when there is no summary. -/
theorem claim5_amended_fallback_totality (d : Dataset) (err : Str) :
    enhance_news_data (.ok ()) (.error err) d
      = .ok { d with all_news := d.all_news.map fillMissing }
  ∧ (∀ n : Item, (fillMissing n).title_zh = some (n.title_zh.getD n.title)
      ∧ (fillMissing n).ai_summary = some (n.ai_summary.getD (n.summary.take 100)))
  ∧ (∀ n : Item, n.title_zh = none → n.title ≠ [] →
      ∀ v : Str, (fillMissing n).title_zh = some v → v ≠ []) := by
  refine ⟨?_, fun n => ⟨rfl, rfl⟩, ?_⟩
  · by_cases hnil : d.all_news = []
    · rw [enhance_news_data, if_pos hnil]
      cases d with
      | mk fd wk tc lb en zh al =>
        have h2 : al = [] := hnil
        subst h2
        rfl
    · rw [enhance_news_data, if_neg hnil]
  · intro n hzh ht v hv
    have hval : some (n.title_zh.getD n.title) = some v := hv
    rw [hzh] at hval
    have : n.title = v := by
      simpa using hval
    rw [← this]
    exact ht

/-- Witness for C5's amended statement: a titled item with no prior
translation gets its own non-empty title as translated title. -/
theorem claim5_witness : ("Hello".toList : Str) ≠ [] :=
  (claim5_amended_fallback_totality emptyDataset "e".toList).2.2
    (mkSimpleItem "Hello".toList) rfl (by decide) "Hello".toList rfl

/-! Lemmas about the aggregation pipeline (C7, C8, C9). -/

theorem fetch_all_news_all (googleFeed : Str → Str → List GEntry) (fromiso : Str → IsoRes)
    (kr : List KEntry) (sp : List SEntry) (now lookback : Int) :
    (fetch_all_news googleFeed fromiso kr sp now lookback).all_news
      = (aggCapped googleFeed fromiso kr sp now lookback).map stripTs := rfl

theorem fetch_all_news_en (googleFeed : Str → Str → List GEntry) (fromiso : Str → IsoRes)
    (kr : List KEntry) (sp : List SEntry) (now lookback : Int) :
    (fetch_all_news googleFeed fromiso kr sp now lookback).en_news
      = ((aggCapped googleFeed fromiso kr sp now lookback).filter
          fun n => n.lang == "en".toList).map stripTs := rfl

theorem fetch_all_news_zh (googleFeed : Str → Str → List GEntry) (fromiso : Str → IsoRes)
    (kr : List KEntry) (sp : List SEntry) (now lookback : Int) :
    (fetch_all_news googleFeed fromiso kr sp now lookback).zh_news
      = ((aggCapped googleFeed fromiso kr sp now lookback).filter
          fun n => n.lang == "zh".toList).map stripTs := rfl

theorem get_google_news_lang (lang : Str) (nr : Nat) (feed : List GEntry)
    (now lookback : Int) :
    ∀ it ∈ get_google_news lang nr feed now lookback, it.lang = lang := by
  intro it hmem
  obtain ⟨e, _, hit⟩ := get_google_news_mem lang nr feed now lookback it hmem
  rw [hit]

theorem krGo_lang (fromiso : Str → IsoRes) (cutoff now : Int) :
    ∀ (es : List KEntry) (l : List Item), krGo fromiso cutoff now es = some l →
      ∀ it ∈ l, it.lang = "zh".toList := by
  intro es
  induction es with
  | nil =>
    intro l hl it hit
    rw [krGo] at hl
    injection hl with h
    rw [← h] at hit
    exact absurd hit (List.not_mem_nil it)
  | cons e es ih =>
    intro l hl it hit
    rw [krGo] at hl
    cases hp : krPub fromiso now e with
    | none => rw [hp] at hl; exact absurd hl (by simp)
    | some pub =>
      rw [hp] at hl
      rcases Option.map_eq_some'.mp hl with ⟨rest, hrest, hf⟩
      rw [← hf] at hit
      by_cases hc : pub < cutoff
      · rw [if_pos hc] at hit
        exact ih rest hrest it hit
      · rw [if_neg hc] at hit
        rcases List.mem_cons.mp hit with rfl | h2
        · rfl
        · exact ih rest hrest it h2

theorem get_36kr_news_lang (nr : Nat) (fromiso : Str → IsoRes) (entries : List KEntry)
    (now lookback : Int) :
    ∀ it ∈ get_36kr_news nr fromiso entries now lookback, it.lang = "zh".toList := by
  intro it hit
  rw [get_36kr_news] at hit
  cases h : krGo fromiso (now - lookback * 86400) now (entries.take nr) with
  | none =>
    rw [h] at hit
    simp only [Option.getD_none] at hit
    exact absurd hit (List.not_mem_nil it)
  | some l =>
    rw [h] at hit
    simp only [Option.getD_some] at hit
    exact krGo_lang fromiso (now - lookback * 86400) now (entries.take nr) l h it hit

theorem sspaiGo_lang (cutoff : Int) :
    ∀ (es : List SEntry) (budget : Nat), ∀ it ∈ sspaiGo cutoff budget es,
      it.lang = "zh".toList := by
  intro es
  induction es with
  | nil =>
    intro budget it hit
    rw [sspaiGo] at hit
    exact absurd hit (List.not_mem_nil it)
  | cons e es ih =>
    intro budget it hit
    rw [sspaiGo] at hit
    by_cases hkw : sspaiKwMatch e = true
    · rw [if_pos hkw] at hit
      by_cases h0 : e.released_at = 0
      · rw [if_pos h0] at hit
        exact ih budget it hit
      · rw [if_neg h0] at hit
        by_cases hc : e.released_at < cutoff
        · rw [if_pos hc] at hit
          exact ih budget it hit
        · rw [if_neg hc] at hit
          rcases List.mem_cons.mp hit with rfl | h2
          · rfl
          · by_cases hb : budget ≤ 1
            · rw [if_pos hb] at h2
              exact absurd h2 (List.not_mem_nil it)
            · rw [if_neg hb] at h2
              exact ih (budget - 1) it h2
    · rw [if_neg hkw] at hit
      exact ih budget it hit

theorem get_sspai_news_lang (nr : Nat) (entries : List SEntry) (now lookback : Int) :
    ∀ it ∈ get_sspai_news nr entries now lookback, it.lang = "zh".toList := by
  intro it hit
  exact sspaiGo_lang (now - lookback * 86400) entries nr it hit

theorem allConcat_lang (googleFeed : Str → Str → List GEntry) (fromiso : Str → IsoRes)
    (kr : List KEntry) (sp : List SEntry) (now lookback : Int) :
    ∀ it ∈ allConcat googleFeed fromiso kr sp now lookback,
      it.lang = "en".toList ∨ it.lang = "zh".toList := by
  intro it hit
  rw [allConcat] at hit
  simp only [List.append_assoc, List.mem_append, List.mem_flatten, List.mem_map] at hit
  rcases hit with ⟨l, ⟨q, hq, rfl⟩, hil⟩ | ⟨l, ⟨q, hq, rfl⟩, hil⟩ | h3 | h4
  · exact Or.inl (get_google_news_lang "en".toList 5 (googleFeed q "en".toList)
      now lookback it hil)
  · exact Or.inr (get_google_news_lang "zh".toList 5 (googleFeed q "zh".toList)
      now lookback it hil)
  · exact Or.inr (get_36kr_news_lang 5 fromiso kr now lookback it h3)
  · exact Or.inr (get_sspai_news_lang 5 sp now lookback it h4)

theorem mem_insTs {z x : Item} : ∀ {m : List Item}, z ∈ insTs x m → z = x ∨ z ∈ m := by
  intro m
  induction m with
  | nil =>
    intro h
    rw [insTs] at h
    exact Or.inl (List.mem_singleton.mp h)
  | cons y ys ih =>
    intro h
    rw [insTs] at h
    split at h
    · rcases List.mem_cons.mp h with rfl | h2
      · exact Or.inr (List.mem_cons_self _ _)
      · rcases ih h2 with h3 | h4
        · exact Or.inl h3
        · exact Or.inr (List.mem_cons_of_mem _ h4)
    · rcases List.mem_cons.mp h with rfl | h2
      · exact Or.inl rfl
      · exact Or.inr h2

theorem pairwise_insTs (x : Item) :
    ∀ m : List Item, List.Pairwise (fun a b => keyD b ≤ keyD a) m →
      List.Pairwise (fun a b => keyD b ≤ keyD a) (insTs x m) := by
  intro m
  induction m with
  | nil => intro _; exact List.pairwise_singleton _ _
  | cons y ys ih =>
    intro hp
    rcases List.pairwise_cons.mp hp with ⟨hy, hys⟩
    rw [insTs]
    by_cases hlt : keyD x < keyD y
    · rw [if_pos hlt]
      refine List.pairwise_cons.mpr ⟨?_, ih hys⟩
      intro z hz
      rcases mem_insTs hz with rfl | hzys
      · exact le_of_lt hlt
      · exact hy z hzys
    · rw [if_neg hlt]
      refine List.pairwise_cons.mpr ⟨?_, hp⟩
      intro z hz
      rcases List.mem_cons.mp hz with rfl | hzys
      · exact not_lt.mp hlt
      · exact le_trans (hy z hzys) (not_lt.mp hlt)

theorem insTs_perm (x : Item) : ∀ m : List Item, List.Perm (insTs x m) (x :: m) := by
  intro m
  induction m with
  | nil => exact List.Perm.refl _
  | cons y ys ih =>
    rw [insTs]
    by_cases hlt : keyD x < keyD y
    · rw [if_pos hlt]
      exact List.Perm.trans (List.Perm.cons y ih) (List.Perm.swap x y ys)
    · rw [if_neg hlt]

theorem sortTsDesc_perm : ∀ l : List Item, List.Perm (sortTsDesc l) l := by
  intro l
  induction l with
  | nil => exact List.Perm.refl _
  | cons x xs ih =>
    rw [sortTsDesc]
    exact List.Perm.trans (insTs_perm x (sortTsDesc xs)) (List.Perm.cons x ih)

theorem sortTsDesc_sorted :
    ∀ l : List Item, List.Pairwise (fun a b => keyD b ≤ keyD a) (sortTsDesc l) := by
  intro l
  induction l with
  | nil => exact List.Pairwise.nil
  | cons x xs ih =>
    rw [sortTsDesc]
    exact pairwise_insTs x _ ih

theorem filter_insTs (K : Int) (x : Item) :
    ∀ m : List Item,
      (insTs x m).filter (fun y => keyD y == K)
        = if keyD x == K then x :: m.filter (fun y => keyD y == K)
          else m.filter fun y => keyD y == K := by
  intro m
  induction m with
  | nil =>
    by_cases hx : (keyD x == K) = true
    · simp [insTs, List.filter_cons, hx]
    · simp [insTs, List.filter_cons, hx]
  | cons y ys ih =>
    rw [insTs]
    by_cases hlt : keyD x < keyD y
    · rw [if_pos hlt]
      by_cases hy : (keyD y == K) = true
      · have hk : keyD y = K := beq_iff_eq.mp hy
        have hx : (keyD x == K) = false := by
          apply beq_eq_false_iff_ne.mpr
          intro hxx
          rw [hxx, ← hk] at hlt
          exact lt_irrefl _ hlt
        have hxP : ¬ ((keyD x == K) = true) := by simp [hx]
        rw [List.filter_cons, if_pos hy, ih, if_neg hxP, if_neg hxP,
          List.filter_cons, if_pos hy]
      · have hyP : ¬ ((keyD y == K) = true) := hy
        rw [List.filter_cons, if_neg hyP, ih, List.filter_cons, if_neg hyP]
    · rw [if_neg hlt, List.filter_cons]

theorem sortTsDesc_filter_eq (K : Int) :
    ∀ l : List Item,
      (sortTsDesc l).filter (fun y => keyD y == K)
        = l.filter fun y => keyD y == K := by
  intro l
  induction l with
  | nil => rfl
  | cons x xs ih =>
    rw [sortTsDesc, filter_insTs, ih, List.filter_cons]

theorem length_filter_partition :
    ∀ l : List Item, (∀ x ∈ l, x.lang = "en".toList ∨ x.lang = "zh".toList) →
      (l.filter fun n => n.lang == "en".toList).length
        + (l.filter fun n => n.lang == "zh".toList).length = l.length := by
  intro l
  induction l with
  | nil => intro _; rfl
  | cons x xs ih =>
    intro hall
    have hxs : ∀ y ∈ xs, y.lang = "en".toList ∨ y.lang = "zh".toList :=
      fun y hy => hall y (List.mem_cons_of_mem x hy)
    have hlen := ih hxs
    rcases hall x (List.mem_cons_self x xs) with h | h
    · have he : (x.lang == "en".toList) = true := by rw [h]; rfl
      have hz : (x.lang == "zh".toList) = false := by rw [h]; rfl
      rw [List.filter_cons, if_pos he, List.filter_cons, if_neg (by rw [h]; decide)]
      simp only [List.length_cons]
      omega
    · have he : (x.lang == "en".toList) = false := by rw [h]; rfl
      have hz : (x.lang == "zh".toList) = true := by rw [h]; rfl
      rw [List.filter_cons, if_neg (by rw [h]; decide), List.filter_cons, if_pos hz]
      simp only [List.length_cons]
      omega

theorem mem_aggCapped_concat (googleFeed : Str → Str → List GEntry) (fromiso : Str → IsoRes)
    (kr : List KEntry) (sp : List SEntry) (now lookback : Int) :
    ∀ x ∈ aggCapped googleFeed fromiso kr sp now lookback,
      x ∈ allConcat googleFeed fromiso kr sp now lookback := by
  intro x hx
  rw [aggCapped] at hx
  have h1 : x ∈ aggSorted googleFeed fromiso kr sp now lookback :=
    List.mem_of_mem_take hx
  rw [aggSorted] at h1
  have h2 : x ∈ aggRecent googleFeed fromiso kr sp now lookback :=
    (sortTsDesc_perm _).mem_iff.mp h1
  have h3 : x ∈ aggDeduped googleFeed fromiso kr sp now lookback := by
    rw [aggRecent, filter_recent_news_eq] at h2
    exact (List.mem_filter.mp h2).1
  rw [aggDeduped, deduplicate_news] at h3
  exact (dedupGo_sublist _ []).subset h3

/-- C7: every aggregation run yields a flat item list of at most 20 items,
and the English and Chinese partitions together contain exactly as many
items as the flat list. -/
theorem claim7_cap_and_partition (googleFeed : Str → Str → List GEntry)
    (fromiso : Str → IsoRes) (kr : List KEntry) (sp : List SEntry) (now lookback : Int) :
    (fetch_all_news googleFeed fromiso kr sp now lookback).all_news.length ≤ 20
  ∧ (fetch_all_news googleFeed fromiso kr sp now lookback).en_news.length
      + (fetch_all_news googleFeed fromiso kr sp now lookback).zh_news.length
      = (fetch_all_news googleFeed fromiso kr sp now lookback).all_news.length := by
  constructor
  · rw [fetch_all_news_all, List.length_map, aggCapped]
    exact List.length_take_le _ _
  · rw [fetch_all_news_all, fetch_all_news_en, fetch_all_news_zh,
      List.length_map, List.length_map, List.length_map]
    refine length_filter_partition _ ?_
    intro x hx
    exact allConcat_lang googleFeed fromiso kr sp now lookback x
      (mem_aggCapped_concat googleFeed fromiso kr sp now lookback x hx)

/-- C8: the aggregation sort orders by the internal "_published_ts" key
descending and is stable: the sorted list is pairwise nonincreasing in the
key, a permutation of its input, and for every key value the capped sorted
list's items with that key form a subsequence — order preserved — of the
concatenated adapter-then-query call-order input's items with that key. -/
theorem claim8_sort_stable (googleFeed : Str → Str → List GEntry)
    (fromiso : Str → IsoRes) (kr : List KEntry) (sp : List SEntry)
    (now lookback : Int) (K : Int) :
    List.Pairwise (fun a b => keyD b ≤ keyD a)
      (aggSorted googleFeed fromiso kr sp now lookback)
  ∧ List.Perm (aggSorted googleFeed fromiso kr sp now lookback)
      (aggRecent googleFeed fromiso kr sp now lookback)
  ∧ List.Sublist
      ((aggCapped googleFeed fromiso kr sp now lookback).filter fun y => keyD y == K)
      ((allConcat googleFeed fromiso kr sp now lookback).filter fun y => keyD y == K) := by
  refine ⟨sortTsDesc_sorted _, sortTsDesc_perm _, ?_⟩
  have h1 : List.Sublist
      ((aggCapped googleFeed fromiso kr sp now lookback).filter fun y => keyD y == K)
      ((aggSorted googleFeed fromiso kr sp now lookback).filter fun y => keyD y == K) :=
    (List.take_sublist _ _).filter _
  have h2 : (aggSorted googleFeed fromiso kr sp now lookback).filter (fun y => keyD y == K)
      = (aggRecent googleFeed fromiso kr sp now lookback).filter fun y => keyD y == K :=
    sortTsDesc_filter_eq K _
  have h3 : List.Sublist (aggRecent googleFeed fromiso kr sp now lookback)
      (aggDeduped googleFeed fromiso kr sp now lookback) := by
    rw [aggRecent, filter_recent_news_eq]
    exact List.filter_sublist _
  have h4 : List.Sublist (aggDeduped googleFeed fromiso kr sp now lookback)
      (allConcat googleFeed fromiso kr sp now lookback) :=
    dedupGo_sublist _ []
  rw [h2] at h1
  exact h1.trans ((h3.trans h4).filter _)

/-- C9: in the dataset returned by aggregation no item of the flat list or
of either language partition carries the internal "_published_ts" key, the
flat list is exactly the capped sorted list with that key stripped, and
the stripping step leaves every other key of an item unchanged. -/
theorem claim9_ts_stripped (googleFeed : Str → Str → List GEntry)
    (fromiso : Str → IsoRes) (kr : List KEntry) (sp : List SEntry) (now lookback : Int) :
    (∀ x ∈ (fetch_all_news googleFeed fromiso kr sp now lookback).all_news, x.ts = none)
  ∧ (∀ x ∈ (fetch_all_news googleFeed fromiso kr sp now lookback).en_news, x.ts = none)
  ∧ (∀ x ∈ (fetch_all_news googleFeed fromiso kr sp now lookback).zh_news, x.ts = none)
  ∧ (fetch_all_news googleFeed fromiso kr sp now lookback).all_news
      = (aggCapped googleFeed fromiso kr sp now lookback).map stripTs
  ∧ (∀ y : Item, (stripTs y).title = y.title ∧ (stripTs y).link = y.link
      ∧ (stripTs y).source = y.source ∧ (stripTs y).published = y.published
      ∧ (stripTs y).summary = y.summary ∧ (stripTs y).lang = y.lang
      ∧ (stripTs y).title_zh = y.title_zh ∧ (stripTs y).ai_summary = y.ai_summary) := by
  refine ⟨?_, ?_, ?_, fetch_all_news_all googleFeed fromiso kr sp now lookback,
    fun y => ⟨rfl, rfl, rfl, rfl, rfl, rfl, rfl, rfl⟩⟩
  · intro x hx
    rw [fetch_all_news_all] at hx
    rcases List.mem_map.mp hx with ⟨y, _, rfl⟩
    rfl
  · intro x hx
    rw [fetch_all_news_en] at hx
    rcases List.mem_map.mp hx with ⟨y, _, rfl⟩
    rfl
  · intro x hx
    rw [fetch_all_news_zh] at hx
    rcases List.mem_map.mp hx with ⟨y, _, rfl⟩
    rfl

set_option maxRecDepth 8192 in
/-- Witness for C9 on a concrete run in which the feed adapter produces
one item: the flat list's sole item carries no "_published_ts" key. -/
theorem claim9_witness : (stripTs itemW).ts = none :=
  (claim9_ts_stripped (fun _ _ => [gEntryW]) (fun _ => .err) [] [] 0 0).1
    (stripTs itemW) (by decide)

end AiFintechWeekly
